/-
Verification of the normalization and matching pipeline of `website.py`
(identifier canonicalization, direction extraction, vector normalization,
confidence scoring and joining).

Strings are modelled as lists of characters (`Str`).  Python float
arithmetic is modelled with exact rationals (`ℚ`) for the string/score
parts and with real numbers (`ℝ`) where a square root occurs; float
rounding, `inf` and `nan` are outside the exact model and are noted at
the definitions they would affect.
-/
import Mathlib

namespace Website

abbrev Str := List Char

/-- Character list of a string literal. -/
def strL (s : String) : Str := s.data

/-- Whitespace as in Python's `str.strip()` / regex `\s` (ASCII fragment:
space, tab, newline, carriage return, vertical tab, form feed). -/
def isWs (c : Char) : Bool :=
  c == ' ' || c == '\t' || c == '\n' || c == '\r' || c.toNat == 11 || c.toNat == 12

/-- Python `str.strip()` (ASCII whitespace fragment). -/
def pyStrip (l : Str) : Str :=
  ((l.dropWhile isWs).reverse.dropWhile isWs).reverse

/-- Python (posix) `os.path.basename`: the part after the last slash. -/
def basenameOf (l : Str) : Str :=
  (l.reverse.takeWhile (fun c => c != '/')).reverse

/-- ASCII lower-casing of one character (Python `str.lower()` on the
ASCII inputs that occur here). -/
def lowerC (c : Char) : Char :=
  if 'A' ≤ c ∧ c ≤ 'Z' then Char.ofNat (c.toNat + 32) else c

def lowerL (l : Str) : Str := l.map lowerC

/-- Python `pat in s` substring test. -/
def hasSubstr (pat : Str) : Str → Bool
  | [] => pat.isEmpty
  | c :: rest => pat.isPrefixOf (c :: rest) || hasSubstr pat rest

/-- `low.endswith(pat)` where `low` is the lower-cased string; `pat` is
given already lower-case. -/
def endsWithCI (l : Str) (pat : Str) : Bool :=
  pat.isSuffixOf (lowerL l)

/-- The three exposure-tag literals, in the order the source lists them. -/
def evTags : List Str := [strL "ev-00", strL "ev-25", strL "ev-50"]

def evLoop (s : Str) : List Str → Str
  | [] => []
  | tag :: rest => if hasSubstr tag s then tag else evLoop s rest

/-- `_extract_ev_tag`: first of the three literals (in listed order) that
occurs as a substring, else empty.  (The source's `if not s: return ""`
shortcut gives the same result as the loop on the empty string.) -/
def extract_ev_tag (s : Str) : Str := evLoop s evTags

def isSep (c : Char) : Bool := c == ':' || c == '_' || c == '-'

def dropWs (l : Str) : Str := l.dropWhile isWs

/-- Head match of `r[123]\s*[:_\-]+` (case-insensitive), returning the
remainder after the (greedy) match.  The trailing `+` is greedy, so every
leading separator of the remainder is consumed. -/
def matchCore : Str → Option Str
  | c :: d :: rest =>
    if lowerC c == 'r' && (d == '1' || d == '2' || d == '3') then
      match dropWs rest with
      | e :: rest3 => if isSep e then some (rest3.dropWhile isSep) else none
      | [] => none
    else none
  | _ => none

/-- Head match of the full pattern `(?:rank\s*)?r[123]\s*[:_\-]+`
(case-insensitive): the optional `rank\s*` group is tried greedily first,
falling back to the bare core.  (Regex backtracking inside `\s*` can never
turn a failure into a success here because the next pattern element `r`,
resp. `[:_\-]`, is not whitespace, so maximal munch is faithful.) -/
def matchRankPre (l : Str) : Option Str :=
  match (if lowerL (l.take 4) = strL "rank" then matchCore (dropWs (l.drop 4)) else none) with
  | some r => some r
  | none => matchCore l

/-- `re.sub(r"^(?:rank\s*)?r[123]\s*[:_\-]+", "", s, flags=re.IGNORECASE)`:
the pattern is anchored, so at most one leading match is removed. -/
def subRank (l : Str) : Str := (matchRankPre l).getD l

def replaceSpaces (l : Str) : Str :=
  l.map (fun c => if c == ' ' then '_' else c)

/-- Collapse of every run of underscores to a single one; the flag records
whether the previously emitted character was an underscore.  This is the
fixpoint of the source's `while "__" in s: s = s.replace("__", "_")` loop. -/
def collapseGo : Bool → Str → Str
  | _, [] => []
  | prevU, c :: rest =>
    if c == '_' then
      if prevU then collapseGo true rest else '_' :: collapseGo true rest
    else c :: collapseGo false rest

def collapseUnders (l : Str) : Str := collapseGo false l

/-- Python `s.strip("_")`. -/
def stripUnders (l : Str) : Str :=
  ((l.dropWhile (fun c => c == '_')).reverse.dropWhile (fun c => c == '_')).reverse

/-- `_normalize_id_and_ev`: canonicalize a free-form identifier into
`(base_id, exposure_tag)`, following the source line by line. -/
def normalize_id_and_ev (s0 : Str) : Str × Str :=
  let s1 := basenameOf (pyStrip s0)
  let ev := extract_ev_tag s1
  let s2 := if endsWithCI s1 (strL ".gz") then s1.take (s1.length - 3) else s1
  let s3 := if endsWithCI s2 (strL ".json") then s2.take (s2.length - 5) else s2
  let s4 := if endsWithCI s3 (strL "_points") then s3.take (s3.length - 7) else s3
  let s5 :=
    if endsWithCI s4 (strL "_ev-00") then s4.take (s4.length - 6)
    else if endsWithCI s4 (strL "_ev-25") then s4.take (s4.length - 6)
    else if endsWithCI s4 (strL "_ev-50") then s4.take (s4.length - 6)
    else s4
  let s6 := subRank s5
  let s7 := stripUnders (collapseUnders (replaceSpaces s6))
  (s7, ev)

/-! Data model: values of a pickled sample record / CSV row. -/

/-- Values occurring in a sample record or CSV row (the fragment the core
consumes): numbers, strings, lists/tuples (both modelled as `arr`), nested
dicts, and `None`.  Python dicts have unique keys; records are association
lists whose lookup takes the first binding. -/
inductive PyVal where
  | num (q : ℚ)
  | str (s : Str)
  | arr (l : List PyVal)
  | obj (m : List (Str × PyVal))
  | pynone

abbrev Record := List (Str × PyVal)

/-- `d.get(k)`: `None` when the key is absent. -/
def getVal (d : Record) (k : Str) : Option PyVal :=
  (d.find? (fun p => p.1 == k)).map (fun p => p.2)

/-- `k in d`. -/
def hasKey (d : Record) (k : Str) : Bool := (getVal d k).isSome

/-- Reads a maximal run of decimal digits, returning the accumulated value,
the number of digits read, and the rest of the input. -/
def readDigits : Str → ℕ → ℕ → ℕ × ℕ × Str
  | [], acc, n => (acc, n, [])
  | c :: rest, acc, n =>
    if c.isDigit then readDigits rest (10 * acc + (c.toNat - 48)) (n + 1)
    else (acc, n, c :: rest)

/-- Python `float(string)` on the common literal forms: optional
surrounding whitespace, optional sign, digits with an optional fractional
part (at least one digit overall), optional decimal exponent.
`inf`/`nan` and underscore digit separators are outside the
exact-rational model. -/
def pyFloatOfStr (s : Str) : Option ℚ :=
  let t := pyStrip s
  let sgn : ℚ × Str :=
    match t with
    | '-' :: r => (-1, r)
    | '+' :: r => (1, r)
    | r => (1, r)
  let (ip, ic, t2) := readDigits sgn.2 0 0
  let frac : ℕ × ℕ × Str :=
    match t2 with
    | '.' :: r => readDigits r 0 0
    | r => (0, 0, r)
  let (fp, fc, t3) := frac
  if ic = 0 ∧ fc = 0 then none
  else
    let mant : ℚ := sgn.1 * ((ip : ℚ) + (fp : ℚ) / (10 : ℚ) ^ fc)
    match t3 with
    | [] => some mant
    | e :: r =>
      if e == 'e' || e == 'E' then
        let esgn : ℤ × Str :=
          match r with
          | '-' :: rr => (-1, rr)
          | '+' :: rr => (1, rr)
          | rr => (1, rr)
        let (expv, ec, r2) := readDigits esgn.2 0 0
        if ec = 0 ∨ r2 ≠ [] then none
        else some (mant * (10 : ℚ) ^ (esgn.1 * (expv : ℤ)))
      else none

/-- `_as_float`: `float(x)` returning `None` on failure.  Numbers parse to
themselves, strings via `pyFloatOfStr`; lists, dicts and `None` raise a
`TypeError` in Python, hence `none`. -/
def as_float : PyVal → Option ℚ
  | .num q => some q
  | .str s => pyFloatOfStr s
  | _ => none

/-! Confidence scorer (`confidence_from_row`). -/

/-- Final clamp `max(0.0, min(1.0, conf))` of the source. -/
def clamp01 (q : ℚ) : ℚ := max 0 (min 1 q)

/-- The `mae_conf` piecewise value of `confidence_from_row`: degenerate
threshold mode when `E_bad <= E_good`, otherwise the clamped linear ramp. -/
def maeConf (mae egood ebad : ℚ) : ℚ :=
  if ebad ≤ egood then (if mae ≤ egood then 1 else 0)
  else
    let t := (mae - egood) / (ebad - egood)
    if t < 0 then 1 else if 1 < t then 0 else 1 - t

/-- Numeric core of `confidence_from_row` once `frac` and `mae` are
parsed: `conf = frac * mae_conf`, clamped to `[0,1]`. -/
def confidence_core (frac mae egood ebad : ℚ) : ℚ :=
  clamp01 (frac * maeConf mae egood ebad)

/-- `confidence_from_row`: parse `inlier_weight_frac` (default `0.0` when
the key is missing or the value unparsable) and `mae_in_deg_weighted`
(default the sentinel `1e9`), then score. -/
def confidence_from_row (row : Record) (egood ebad : ℚ) : ℚ :=
  let frac := ((getVal row (strL "inlier_weight_frac")).bind as_float).getD 0
  let mae := ((getVal row (strL "mae_in_deg_weighted")).bind as_float).getD 1000000000
  confidence_core frac mae egood ebad

/-! Direction extraction (`extract_direction_components`). -/

def DIR_KEY_CANDIDATES : List (Str × Str × Str) :=
  [(strL "dir_x", strL "dir_y", strL "dir_z"),
   (strL "dir_vx", strL "dir_vy", strL "dir_vz"),
   (strL "dirvx", strL "dirvy", strL "dirvz"),
   (strL "light_dir_x", strL "light_dir_y", strL "light_dir_z"),
   (strL "direction_x", strL "direction_y", strL "direction_z"),
   (strL "vx", strL "vy", strL "vz"),
   (strL "Lx", strL "Ly", strL "Lz"),
   (strL "L_x", strL "L_y", strL "L_z")]

def SINGLE_VEC_CANDIDATES : List Str :=
  [strL "dir", strL "dir_v", strL "light_dir", strL "direction",
   strL "dir_vec", strL "dirv", strL "L", strL "light_direction"]

def NESTED_ROOTS : List Str :=
  [strL "dir", strL "direction", strL "light_dir", strL "L"]

def NESTED_TRIPLES : List (Str × Str × Str) :=
  [(strL "x", strL "y", strL "z"),
   (strL "vx", strL "vy", strL "vz"),
   (strL "dir_x", strL "dir_y", strL "dir_z")]

/-- Source descriptor `f"{kx},{ky},{kz}"`. -/
def commaJoin3 (a b c : Str) : Str := a ++ strL "," ++ b ++ strL "," ++ c

/-- Nested-key descriptor component `f"{root}.{k}"`. -/
def dotKey (root k : Str) : Str := root ++ strL "." ++ k

/-- Loop 1 of `extract_direction_components`: flat three-key triples; a
triple whose keys are all present but whose values do not all parse is
skipped and the search continues. -/
def tryFlat (d : Record) : List (Str × Str × Str) → Option (ℚ × ℚ × ℚ × Str)
  | [] => none
  | (kx, ky, kz) :: rest =>
    if hasKey d kx && hasKey d ky && hasKey d kz then
      match (getVal d kx).bind as_float, (getVal d ky).bind as_float,
          (getVal d kz).bind as_float with
      | some x, some y, some z => some (x, y, z, commaJoin3 kx ky kz)
      | _, _, _ => tryFlat d rest
    else tryFlat d rest

/-- Loop 2: single-key vector fields whose value is a sequence of at least
three elements, taking elements 0, 1, 2. -/
def trySingle (d : Record) : List Str → Option (ℚ × ℚ × ℚ × Str)
  | [] => none
  | vk :: rest =>
    match getVal d vk with
    | some (.arr l) =>
      if 3 ≤ l.length then
        match (l.get? 0).bind as_float, (l.get? 1).bind as_float,
            (l.get? 2).bind as_float with
        | some x, some y, some z => some (x, y, z, vk)
        | _, _, _ => trySingle d rest
      else trySingle d rest
    | _ => trySingle d rest

/-- Loop 3, inner part: component-name triples inside one nested object. -/
def tryNestedIn (root : Str) (m : Record) :
    List (Str × Str × Str) → Option (ℚ × ℚ × ℚ × Str)
  | [] => none
  | (c0, c1, c2) :: rest =>
    if hasKey m c0 && hasKey m c1 && hasKey m c2 then
      match (getVal m c0).bind as_float, (getVal m c1).bind as_float,
          (getVal m c2).bind as_float with
      | some x, some y, some z =>
        some (x, y, z, commaJoin3 (dotKey root c0) (dotKey root c1) (dotKey root c2))
      | _, _, _ => tryNestedIn root m rest
    else tryNestedIn root m rest

/-- Loop 3: nested-object root keys. -/
def tryNested (d : Record) : List Str → Option (ℚ × ℚ × ℚ × Str)
  | [] => none
  | root :: rest =>
    match getVal d root with
    | some (.obj m) =>
      match tryNestedIn root m NESTED_TRIPLES with
      | some r => some r
      | none => tryNested d rest
    | _ => tryNested d rest

/-- `extract_direction_components`: flat triples, then single-key vectors,
then nested objects, first full success winning; on no success the
`(None, None, None, "no_direction_keys_found")` outcome. -/
def extract_direction_components (d : Record) : Option (ℚ × ℚ × ℚ) × Str :=
  match tryFlat d DIR_KEY_CANDIDATES with
  | some (x, y, z, src) => (some (x, y, z), src)
  | none =>
    match trySingle d SINGLE_VEC_CANDIDATES with
    | some (x, y, z, src) => (some (x, y, z), src)
    | none =>
      match tryNested d NESTED_ROOTS with
      | some (x, y, z, src) => (some (x, y, z), src)
      | none => (none, strL "no_direction_keys_found")

/-- Every top-level key any extraction candidate consults. -/
def ALL_DIR_KEYS : List Str :=
  (DIR_KEY_CANDIDATES.map (fun p => p.1)) ++ (DIR_KEY_CANDIDATES.map (fun p => p.2.1)) ++
    (DIR_KEY_CANDIDATES.map (fun p => p.2.2)) ++ SINGLE_VEC_CANDIDATES ++ NESTED_ROOTS

/-! Confidence joining (`main`, lines 1086-1120). -/

/-- Python `int(q)` on a finite float: truncation toward zero. -/
def truncInt (q : ℚ) : ℤ := if q < 0 then ⌈q⌉ else ⌊q⌋

/-- `int(float(d.get("rank", 1)))` with fallback 1 on any parse failure. -/
def sampleRank (d : Record) : ℤ :=
  match getVal d (strL "rank") with
  | none => 1
  | some v =>
    match as_float v with
    | some q => truncInt q
    | none => 1

abbrev ConfTable := List ((Str × ℤ) × ℚ)

/-- Dictionary lookup `conf_map.get((base_id, rk))`; the table models a
Python dict, so keys are unique and the first binding is the binding. -/
def lookupConf (t : ConfTable) (k : Str × ℤ) : Option ℚ :=
  (t.find? (fun p => p.1 == k)).map (fun p => p.2)

/-- The identifier candidate fields, in the order `main` lists them. -/
def CAND_FIELDS : List Str :=
  [strL "painting_info", strL "painting_rank_id", strL "pose_info",
   strL "img_path", strL "file"]

/-- String value of `d.get(field, "")` for an identifier candidate.  The
identifier fields are strings in the data; the `str()` coercion the
canonicalizer would apply to a non-string value is outside the model. -/
def candStr (v : Option PyVal) : Str :=
  match v with
  | some (.str s) => s
  | _ => []

/-- The candidate loop of `main` (lines 1104-1113): skip falsy candidates,
canonicalize, skip empty base ids, look up `(base_id, rk)`; the first hit
wins and breaks the loop. -/
def joinLoop (t : ConfTable) (rk : ℤ) : List Str → Option ℚ
  | [] => none
  | cand :: rest =>
    if cand.isEmpty then joinLoop t rk rest
    else
      let b := (normalize_id_and_ev cand).1
      if b.isEmpty then joinLoop t rk rest
      else
        match lookupConf t (b, rk) with
        | some v => some v
        | none => joinLoop t rk rest

/-- Confidence joining for one sample, as in `main`. -/
def joinConfidence (t : ConfTable) (d : Record) : Option ℚ :=
  joinLoop t (sampleRank d) (CAND_FIELDS.map (fun f => candStr (getVal d f)))

/-- Modelled from the claim's wording, for comparison with the code: try
the candidates in the fixed order, skipping only empty candidates,
canonicalize each and look up `(base_id, sample_rank)`, first hit winning,
`None` when no candidate hits. -/
def joinConfidenceClaim (t : ConfTable) (d : Record) : Option ℚ :=
  (CAND_FIELDS.map (fun f => candStr (getVal d f))).findSome?
    (fun cand =>
      if cand.isEmpty then none
      else lookupConf t ((normalize_id_and_ev cand).1, sampleRank d))

/-- Declarative form of the code's join: as `joinConfidenceClaim`, but
additionally skipping candidates whose canonical base id is empty. -/
def joinConfidenceDecl (t : ConfTable) (d : Record) : Option ℚ :=
  (CAND_FIELDS.map (fun f => candStr (getVal d f))).findSome?
    (fun cand =>
      if cand.isEmpty then none
      else
        let b := (normalize_id_and_ev cand).1
        if b.isEmpty then none else lookupConf t (b, sampleRank d))

/-! Vector normalization and the enrichment loop of `main`. -/

/-- Default `eps=1e-12` of `normalize_vec`. -/
noncomputable def defaultEps : ℝ := 1 / 10 ^ 12

/-- `normalize_vec`: Euclidean magnitude via `math.sqrt`; a below-`eps`
magnitude fails (null unit components) while the magnitude is still
reported.  An exact real is always finite, so the `math.isfinite` guard of
the source never fires in the model (float `inf`/`nan` are outside it). -/
noncomputable def normalize_vec (x y z eps : ℝ) : Option (ℝ × ℝ × ℝ) × ℝ :=
  let n := Real.sqrt (x * x + y * y + z * z)
  if n < eps then (none, n) else (some (x / n, y / n, z / n), n)

/-- A sample after the enrichment loop of `main`: the record plus the
fields `x`, `y`, `z`, `dir_norm_raw`, `dir_src_keys` written into it. -/
structure Enriched where
  sample : Record
  x : ℝ
  y : ℝ
  z : ℝ
  dir_norm_raw : Option ℝ
  dir_src_keys : Str

/-- One iteration of the enrichment loop (`main`, lines 1129-1151):
extract a direction (failure drops the sample); with `--no-normalize` keep
the raw components and compute the raw magnitude; otherwise unit-normalize
and drop the sample when normalization fails.  `dir_norm_raw` would be
null only for a non-finite magnitude, which the exact-real model cannot
produce. -/
noncomputable def processOne (noNormalize : Bool) (d : Record) : Option Enriched :=
  match extract_direction_components d with
  | (none, _) => none
  | (some (x, y, z), src) =>
    if noNormalize then
      some ⟨d, (x : ℝ), (y : ℝ), (z : ℝ),
        some (Real.sqrt ((x : ℝ) * (x : ℝ) + (y : ℝ) * (y : ℝ) + (z : ℝ) * (z : ℝ))), src⟩
    else
      match normalize_vec (x : ℝ) (y : ℝ) (z : ℝ) defaultEps with
      | (some (ux, uy, uz), n) => some ⟨d, ux, uy, uz, some n, src⟩
      | (none, _) => none

/-- The enrichment loop over the whole input (`used` list, in order). -/
noncomputable def processSamples (noNormalize : Bool) (ds : List Record) : List Enriched :=
  ds.filterMap (processOne noNormalize)

/-- The fatal check of `main` (lines 1153-1156): when no sample survives
the enrichment loop, the pipeline reports an error and returns before
asset staging and before `index.html` is written (modelled as `none`);
otherwise the surviving samples flow on to those steps. -/
noncomputable def runCore (noNormalize : Bool) (ds : List Record) : Option (List Enriched) :=
  let used := processSamples noNormalize ds
  if used.isEmpty then none else some used

/-! Helper lemmas about the canonicalizer. -/

theorem takeWhile_all {p : Char → Bool} {l : Str} (h : ∀ c ∈ l, p c = true) :
    l.takeWhile p = l := by
  induction l with
  | nil => rfl
  | cons c rest ih =>
    rw [List.takeWhile_cons, if_pos (h c (List.mem_cons_self c rest)),
      ih (fun d hd => h d (List.mem_cons_of_mem c hd))]

theorem basename_no_slash {b : Str} (h : '/' ∉ b) : basenameOf b = b := by
  unfold basenameOf
  rw [takeWhile_all, List.reverse_reverse]
  intro c hc
  have hm : c ∈ b := List.mem_reverse.mp hc
  simp only [bne_iff_ne, ne_eq]
  intro he
  exact h (he ▸ hm)

theorem extract_ev_none {b : Str}
    (h0 : hasSubstr (strL "ev-00") b = false)
    (h1 : hasSubstr (strL "ev-25") b = false)
    (h2 : hasSubstr (strL "ev-50") b = false) :
    extract_ev_tag b = [] := by
  simp [extract_ev_tag, evTags, evLoop, h0, h1, h2]

theorem replaceSpaces_id {b : Str} (h : ' ' ∉ b) : replaceSpaces b = b := by
  induction b with
  | nil => rfl
  | cons c rest ih =>
    have hc : ¬ ((c == ' ') = true) := by
      simp only [beq_iff_eq]
      exact fun he => h (by simp [he])
    have ih2 := ih (fun hm => h (List.mem_cons_of_mem c hm))
    simp only [replaceSpaces, List.map_cons] at ih2 ⊢
    rw [if_neg hc]
    exact congrArg (c :: ·) ih2

theorem head_ne_of_not_pre {rest : Str}
    (h : List.isPrefixOf (strL "__") ('_' :: rest) = false) :
    rest.head? ≠ some '_' := by
  cases rest with
  | nil => simp
  | cons d r =>
    simp only [strL, List.isPrefixOf, beq_self_eq_true, Bool.true_and] at h
    simp only [List.head?, ne_eq, Option.some.injEq]
    intro he
    rw [he] at h
    simp at h

theorem collapseGo_id {l : Str} (h : hasSubstr (strL "__") l = false) :
    ∀ fl, (fl = true → l.head? ≠ some '_') → collapseGo fl l = l := by
  induction l with
  | nil => intro fl _; rfl
  | cons c rest ih =>
    intro fl hfl
    have hsplit : List.isPrefixOf (strL "__") (c :: rest) = false ∧
        hasSubstr (strL "__") rest = false := by
      have h2 := h
      simp only [hasSubstr, Bool.or_eq_false_iff] at h2
      exact h2
    by_cases hc : c = '_'
    · subst hc
      cases fl with
      | true =>
        exact absurd (by simp : ('_' :: rest).head? = some '_') (hfl rfl)
      | false =>
        simp only [collapseGo, beq_self_eq_true, if_true]
        rw [ih hsplit.2 true (fun _ => head_ne_of_not_pre hsplit.1)]
        simp
    · have hcb : ¬ ((c == '_') = true) := by simp [beq_iff_eq, hc]
      simp only [collapseGo]
      rw [if_neg hcb, ih hsplit.2 false (fun hff => Bool.noConfusion hff)]

theorem dropWhile_head {p : Char → Bool} {l : Str}
    (h : ∀ c, l.head? = some c → p c = false) : l.dropWhile p = l := by
  cases l with
  | nil => rfl
  | cons c rest =>
    rw [List.dropWhile_cons, if_neg]
    simp [h c rfl]

theorem stripUnders_id {b : Str} (h1 : b.head? ≠ some '_') (h2 : b.getLast? ≠ some '_') :
    stripUnders b = b := by
  unfold stripUnders
  have e1 : b.dropWhile (fun c => c == '_') = b := by
    apply dropWhile_head
    intro c hc
    simp only [beq_eq_false_iff_ne, ne_eq]
    exact fun he => h1 (he ▸ hc)
  rw [e1]
  have e2 : b.reverse.dropWhile (fun c => c == '_') = b.reverse := by
    apply dropWhile_head
    intro c hc
    rw [List.head?_reverse] at hc
    simp only [beq_eq_false_iff_ne, ne_eq]
    exact fun he => h2 (he ▸ hc)
  rw [e2, List.reverse_reverse]

/-- C1 (amended): canonicalization is not idempotent for every input, but a
base id already in canonical shape (no whitespace at the ends, no slash, no
exposure-tag literal, no strippable trailing suffix, no leading rank-prefix
match, no space, no doubled underscore, and no leading or trailing
underscore) is a fixed point: re-applying the canonicalizer returns it
unchanged, with the empty exposure tag. -/
theorem C1_canonical_fixed_point (b : Str)
    (hstrip : pyStrip b = b)
    (hslash : '/' ∉ b)
    (hev0 : hasSubstr (strL "ev-00") b = false)
    (hev1 : hasSubstr (strL "ev-25") b = false)
    (hev2 : hasSubstr (strL "ev-50") b = false)
    (hgz : endsWithCI b (strL ".gz") = false)
    (hjson : endsWithCI b (strL ".json") = false)
    (hpts : endsWithCI b (strL "_points") = false)
    (hsf0 : endsWithCI b (strL "_ev-00") = false)
    (hsf1 : endsWithCI b (strL "_ev-25") = false)
    (hsf2 : endsWithCI b (strL "_ev-50") = false)
    (hrank : matchRankPre b = none)
    (hsp : ' ' ∉ b)
    (hdu : hasSubstr (strL "__") b = false)
    (hhd : b.head? ≠ some '_')
    (hlast : b.getLast? ≠ some '_') :
    normalize_id_and_ev b = (b, []) := by
  have hbase : basenameOf (pyStrip b) = b := by
    rw [hstrip]
    exact basename_no_slash hslash
  simp only [normalize_id_and_ev, hbase, hgz, hjson, hpts, hsf0, hsf1, hsf2,
    Bool.false_eq_true, if_false]
  have hsub : subRank b = b := by simp [subRank, hrank]
  rw [hsub, replaceSpaces_id hsp]
  show (stripUnders (collapseGo false b), extract_ev_tag b) = (b, [])
  rw [collapseGo_id hdu false (fun hff => Bool.noConfusion hff),
    stripUnders_id hhd hlast, extract_ev_none hev0 hev1 hev2]

/-- C1 witness: the already-canonical id `Artist_Name` satisfies every
canonical-shape hypothesis and is returned unchanged with an empty tag. -/
theorem C1_canonical_fixed_point_witness :
    normalize_id_and_ev (strL "Artist_Name") = (strL "Artist_Name", []) :=
  C1_canonical_fixed_point (strL "Artist_Name") (by decide) (by decide)
    (by decide) (by decide) (by decide) (by decide) (by decide) (by decide)
    (by decide) (by decide) (by decide) (by decide) (by decide) (by decide)
    (by decide) (by decide)

/-- C1 counterexample: `canonicalize("a_points_points")` yields base id
`a_points` (with empty tag), but feeding that base id back into the
canonicalizer strips a further `_points` suffix and yields `a`, so
`canonicalize(canonicalize(s)[0]) ≠ canonicalize(s)` for
`s = "a_points_points"`, refuting idempotence as stated. -/
theorem C1_counterexample :
    normalize_id_and_ev (strL "a_points_points") = (strL "a_points", []) ∧
    normalize_id_and_ev ((normalize_id_and_ev (strL "a_points_points")).1) = (strL "a", []) ∧
    normalize_id_and_ev ((normalize_id_and_ev (strL "a_points_points")).1) ≠
      normalize_id_and_ev (strL "a_points_points") := by
  decide

/-- C5: canonicalizing `"R2: Artist_Name_ev-25_points.json"` returns base id
`Artist_Name` and exposure tag `ev-25`. -/
theorem C5_canonical_example :
    normalize_id_and_ev (strL "R2: Artist_Name_ev-25_points.json") =
      (strL "Artist_Name", strL "ev-25") := by
  decide

/-- C6 counterexample: the canonicalizer does not strip the prefix of
`"rank 3-paintingname"` — the regex `^(?:rank\s*)?r[123]\s*[:_\-]+` requires
the letter `r`/`R` immediately before the digit, which this input lacks, so
its base id keeps the rank text (spaces become underscores), refuting the
claim that the digit is only optionally preceded by `r`/`R`. -/
theorem C6_counterexample :
    (normalize_id_and_ev (strL "rank 3-paintingname")).1 = strL "rank_3-paintingname" ∧
    (normalize_id_and_ev (strL "rank 3-paintingname")).1 ≠ strL "paintingname" := by
  decide

/-- C6 (amended): the leading rank-prefix pattern is: optional literal
`rank`, optional whitespace, then the letter `r`/`R` followed (mandatorily)
by a single digit in {1,2,3}, optional whitespace, then one or more of
`:`/`_`/`-`, case-insensitively.  `R2_paintingname` loses its prefix, while
`rank 3-paintingname` (no `r` before the digit) keeps its prefix whatever
follows it. -/
theorem C6_rank_strip_requires_r :
    (∀ (c : Char) (t : Str), isWs c = false → isSep c = false →
      subRank ('R' :: '2' :: '_' :: c :: t) = c :: t) ∧
    (∀ t : Str, subRank (strL "rank 3-" ++ t) = strL "rank 3-" ++ t) ∧
    normalize_id_and_ev (strL "R2_paintingname") = (strL "paintingname", []) := by
  refine ⟨?_, ?_, by decide⟩
  · intro c t hws hsep
    have hrk : strL "rank" = ['r', 'a', 'n', 'k'] := rfl
    have h4 : ¬ (lowerL (('R' :: '2' :: '_' :: c :: t).take 4) = strL "rank") := by
      intro h
      rw [hrk] at h
      simp only [List.take_succ_cons, List.take_zero, lowerL, List.map_cons,
        List.map_nil, List.cons.injEq, and_true] at h
      exact absurd h.2.1 (by decide)
    have hcond : (lowerC 'R' == 'r' && ('2' == '1' || '2' == '2' || '2' == '3')) = true := by
      decide
    have hdw : dropWs ('_' :: c :: t) = '_' :: c :: t := by
      simp [dropWs, List.dropWhile_cons, (by decide : isWs '_' = false)]
    have hds : (c :: t).dropWhile isSep = c :: t := by
      simp [List.dropWhile_cons, hsep]
    simp only [subRank, matchRankPre, if_neg h4, matchCore, hcond, if_true, hdw,
      (by decide : isSep '_' = true), hds, Option.getD_some]
  · intro t
    have h4 : lowerL ((strL "rank 3-" ++ t).take 4) = strL "rank" := by
      show lowerL (('r' :: 'a' :: 'n' :: 'k' :: ' ' :: '3' :: '-' :: t).take 4) = strL "rank"
      simp only [List.take_succ_cons, List.take_zero, lowerL, List.map_cons, List.map_nil]
      decide
    have hdrop : (strL "rank 3-" ++ t).drop 4 = ' ' :: '3' :: '-' :: t := rfl
    have hdw : dropWs (' ' :: '3' :: '-' :: t) = '3' :: '-' :: t := by
      simp [dropWs, List.dropWhile_cons, (by decide : isWs ' ' = true),
        (by decide : isWs '3' = false)]
    have hc1 : matchCore ('3' :: '-' :: t) = none := by
      simp only [matchCore]
      rw [if_neg]
      decide
    have hc2 : matchCore (strL "rank 3-" ++ t) = none := by
      show matchCore ('r' :: 'a' :: 'n' :: 'k' :: ' ' :: '3' :: '-' :: t) = none
      simp only [matchCore]
      rw [if_neg]
      decide
    simp only [subRank, matchRankPre, if_pos h4, hdrop, hdw, hc1, hc2, Option.getD_none]

/-- C7 counterexample: the literal `ev-25` occurs in the input
`"ev-25/x"`, yet canonicalization returns the empty exposure tag, because
the substring search runs on the final path segment (after whitespace
stripping), not on the whole original string. -/
theorem C7_counterexample :
    hasSubstr (strL "ev-25") (strL "ev-25/x") = true ∧
    (normalize_id_and_ev (strL "ev-25/x")).2 = [] ∧
    (normalize_id_and_ev (strL "ev-25/x")).2 ≠ strL "ev-25" := by
  decide

/-- C7 (amended): exposure-tag detection performs a substring search for the
literals `ev-00`, `ev-25`, `ev-50` over the final path segment of the
whitespace-stripped input (before any suffix stripping, so a tag anywhere
within that segment is found), returning the first of the three in listed
order that occurs, and the empty tag when none occurs. -/
theorem C7_ev_detection (s : Str) :
    (normalize_id_and_ev s).2 = extract_ev_tag (basenameOf (pyStrip s)) ∧
    (∀ l : Str, extract_ev_tag l =
      (if hasSubstr (strL "ev-00") l then strL "ev-00"
       else if hasSubstr (strL "ev-25") l then strL "ev-25"
       else if hasSubstr (strL "ev-50") l then strL "ev-50"
       else [])) := by
  constructor
  · rfl
  · intro l
    simp [extract_ev_tag, evTags, evLoop]

/-- C6 witness: instantiating the amended rank-prefix theorem on the
concrete identifier `R2_px`. -/
theorem C6_rank_strip_requires_r_witness :
    subRank ('R' :: '2' :: '_' :: 'p' :: strL "x") = 'p' :: strL "x" :=
  C6_rank_strip_requires_r.1 'p' (strL "x") (by decide) (by decide)

/-! Scorer lemmas. -/

theorem maeConf_nonneg (mae egood ebad : ℚ) : 0 ≤ maeConf mae egood ebad := by
  simp only [maeConf]
  split_ifs with h1 h2 h3 h4 <;> try norm_num
  linarith [h4]

theorem maeConf_anti (egood ebad : ℚ) {mae mae' : ℚ} (h : mae ≤ mae') :
    maeConf mae' egood ebad ≤ maeConf mae egood ebad := by
  simp only [maeConf]
  by_cases hdeg : ebad ≤ egood
  · simp only [hdeg, if_true]
    split_ifs <;> linarith
  · simp only [hdeg, if_false]
    have hd : (0 : ℚ) < ebad - egood := by linarith [not_le.mp hdeg]
    have htle : (mae - egood) / (ebad - egood) ≤ (mae' - egood) / (ebad - egood) :=
      (div_le_div_iff_of_pos_right hd).mpr (by linarith)
    split_ifs <;> linarith

theorem clamp01_nonneg (q : ℚ) : 0 ≤ clamp01 q := le_max_left 0 _

theorem clamp01_le_one (q : ℚ) : clamp01 q ≤ 1 :=
  max_le (by norm_num) (min_le_left 1 q)

theorem clamp01_mono {a b : ℚ} (h : a ≤ b) : clamp01 a ≤ clamp01 b :=
  max_le_max le_rfl (min_le_min le_rfl h)

theorem clamp01_of_nonpos {a : ℚ} (h : a ≤ 0) : clamp01 a = 0 := by
  unfold clamp01
  rw [min_eq_right (h.trans (by norm_num)), max_eq_left h]

/-- C2: every score returned by the confidence scorer lies in `[0,1]`, and
with the other arguments fixed the score is monotonically non-increasing
in `mae` and non-decreasing in `inlier_weight_frac`. -/
theorem C2_confidence_bounds_and_monotone :
    (∀ (row : Record) (egood ebad : ℚ),
      0 ≤ confidence_from_row row egood ebad ∧ confidence_from_row row egood ebad ≤ 1) ∧
    (∀ (frac mae mae' egood ebad : ℚ), mae ≤ mae' →
      confidence_core frac mae' egood ebad ≤ confidence_core frac mae egood ebad) ∧
    (∀ (frac frac' mae egood ebad : ℚ), frac ≤ frac' →
      confidence_core frac mae egood ebad ≤ confidence_core frac' mae egood ebad) := by
  refine ⟨?_, ?_, ?_⟩
  · intro row egood ebad
    exact ⟨clamp01_nonneg _, clamp01_le_one _⟩
  · intro frac mae mae' egood ebad h
    unfold confidence_core
    rcases le_or_lt 0 frac with hf | hf
    · exact clamp01_mono (mul_le_mul_of_nonneg_left (maeConf_anti egood ebad h) hf)
    · have h1 : frac * maeConf mae' egood ebad ≤ 0 :=
        mul_nonpos_iff.mpr (Or.inr ⟨hf.le, maeConf_nonneg _ _ _⟩)
      have h2 : frac * maeConf mae egood ebad ≤ 0 :=
        mul_nonpos_iff.mpr (Or.inr ⟨hf.le, maeConf_nonneg _ _ _⟩)
      rw [clamp01_of_nonpos h1, clamp01_of_nonpos h2]
  · intro frac frac' mae egood ebad h
    unfold confidence_core
    exact clamp01_mono (mul_le_mul_of_nonneg_right h (maeConf_nonneg _ _ _))

/-- C2 witness: at the ramp arguments `E_good=1`, `E_bad=8`, raising `mae`
from 1 to 2 does not raise the score, and raising `frac` from 1/2 to 1
does not lower it. -/
theorem C2_confidence_bounds_and_monotone_witness :
    confidence_core 1 2 1 8 ≤ confidence_core 1 1 1 8 ∧
    confidence_core (1/2) 2 1 8 ≤ confidence_core 1 2 1 8 :=
  ⟨C2_confidence_bounds_and_monotone.2.1 1 1 2 1 8 (by norm_num),
   C2_confidence_bounds_and_monotone.2.2 (1/2) 1 2 1 8 (by norm_num)⟩

/-! Extraction lemmas. -/

theorem tryFlat_none {d : Record} {cands : List (Str × Str × Str)}
    (h : ∀ c ∈ cands, getVal d c.1 = none) : tryFlat d cands = none := by
  induction cands with
  | nil => rfl
  | cons c rest ih =>
    obtain ⟨kx, ky, kz⟩ := c
    have hx : getVal d kx = none := h (kx, ky, kz) (List.mem_cons_self _ _)
    simp only [tryFlat, hasKey, hx, Option.isSome_none, Bool.false_and,
      Bool.false_eq_true, if_false]
    exact ih (fun c hc => h c (List.mem_cons_of_mem _ hc))

theorem trySingle_none {d : Record} {cands : List Str}
    (h : ∀ c ∈ cands, getVal d c = none) : trySingle d cands = none := by
  induction cands with
  | nil => rfl
  | cons vk rest ih =>
    have hv : getVal d vk = none := h vk (List.mem_cons_self _ _)
    simp only [trySingle, hv]
    exact ih (fun c hc => h c (List.mem_cons_of_mem _ hc))

theorem tryNested_none {d : Record} {roots : List Str}
    (h : ∀ c ∈ roots, getVal d c = none) : tryNested d roots = none := by
  induction roots with
  | nil => rfl
  | cons root rest ih =>
    have hv : getVal d root = none := h root (List.mem_cons_self _ _)
    simp only [tryNested, hv]
    exact ih (fun c hc => h c (List.mem_cons_of_mem _ hc))

/-- C3: direction extraction tries the flat three-key triples before the
single-key vector fields before the nested objects, the first full success
winning: a record with the flat triple `dir_x=0.6, dir_y=0, dir_z=0.8` and
the single-vector field `dir=[1,0,0]` yields `(0.6, 0, 0.8)` from the flat
triple; and a record holding none of the candidate keys yields
`(None, None, None, "no_direction_keys_found")`. -/
theorem C3_extraction_priority :
    (∀ d : Record,
      getVal d (strL "dir_x") = some (.num (6/10)) →
      getVal d (strL "dir_y") = some (.num 0) →
      getVal d (strL "dir_z") = some (.num (8/10)) →
      getVal d (strL "dir") = some (.arr [.num 1, .num 0, .num 0]) →
      extract_direction_components d =
        (some (6/10, 0, 8/10), strL "dir_x,dir_y,dir_z")) ∧
    (∀ d : Record, (∀ k ∈ ALL_DIR_KEYS, getVal d k = none) →
      extract_direction_components d = (none, strL "no_direction_keys_found")) := by
  constructor
  · intro d hx hy hz _hdir
    have h1 : tryFlat d DIR_KEY_CANDIDATES =
        some ((6 : ℚ)/10, (0 : ℚ), (8 : ℚ)/10, strL "dir_x,dir_y,dir_z") := by
      simp only [DIR_KEY_CANDIDATES, tryFlat, hasKey, hx, hy, hz, Option.isSome_some,
        Bool.and_self, if_true, Option.some_bind, as_float]
      rfl
    simp only [extract_direction_components, h1]
  · intro d h
    have hflat : tryFlat d DIR_KEY_CANDIDATES = none := by
      apply tryFlat_none
      intro c hc
      apply h
      simp only [ALL_DIR_KEYS, List.mem_append, List.mem_map]
      exact Or.inl (Or.inl (Or.inl (Or.inl ⟨c, hc, rfl⟩)))
    have hsingle : trySingle d SINGLE_VEC_CANDIDATES = none := by
      apply trySingle_none
      intro c hc
      apply h
      simp only [ALL_DIR_KEYS, List.mem_append]
      exact Or.inl (Or.inr hc)
    have hnested : tryNested d NESTED_ROOTS = none := by
      apply tryNested_none
      intro c hc
      apply h
      simp only [ALL_DIR_KEYS, List.mem_append]
      exact Or.inr hc
    simp only [extract_direction_components, hflat, hsingle, hnested]

/-- C3 witness: the theorem instantiated on a concrete record holding both
the flat triple and the single-vector field, and on a record with an
unrelated key. -/
theorem C3_extraction_priority_witness :
    extract_direction_components
        [(strL "dir", .arr [.num 1, .num 0, .num 0]),
         (strL "dir_x", .num (6/10)), (strL "dir_y", .num 0), (strL "dir_z", .num (8/10))] =
      (some (6/10, 0, 8/10), strL "dir_x,dir_y,dir_z") ∧
    extract_direction_components [(strL "foo", .num 1)] =
      (none, strL "no_direction_keys_found") :=
  ⟨C3_extraction_priority.1 _ (by rfl) (by rfl) (by rfl) (by rfl),
   C3_extraction_priority.2 _ (by intro k hk; fin_cases hk <;> rfl)⟩

/-! Joiner lemmas. -/

theorem joinLoop_eq_findSome (t : ConfTable) (rk : ℤ) (cs : List Str) :
    joinLoop t rk cs = cs.findSome? (fun cand =>
      if cand.isEmpty then none
      else
        let b := (normalize_id_and_ev cand).1
        if b.isEmpty then none else lookupConf t (b, rk)) := by
  induction cs with
  | nil => rfl
  | cons c rest ih =>
    rw [List.findSome?_cons]
    by_cases h1 : c.isEmpty
    · simp only [joinLoop, h1, if_true]
      rw [ih]
    · by_cases h2 : ((normalize_id_and_ev c).1).isEmpty
      · simp only [joinLoop, h1, h2, Bool.false_eq_true, if_false, if_true]
        rw [ih]
      · simp only [joinLoop, h1, h2, Bool.false_eq_true, if_false]
        cases hv : lookupConf t ((normalize_id_and_ev c).1, rk) with
        | some v => rfl
        | none => rw [ih]

/-- C4 (amended): for every sample the joiner tries the candidates
`painting_info`, `painting_rank_id`, `pose_info`, `img_path`, `file` in
exactly that order, skipping empty candidates and candidates whose
canonical base id is empty, looking the others up at `(base_id,
sample_rank)`; the first hit wins and short-circuits the rest, no hit
leaves the confidence null; `sample_rank` comes from integer-via-float
coercion of the `rank` field, defaulting to 1 when the field is absent or
unparsable. -/
theorem C4_join_first_hit :
    (∀ (t : ConfTable) (d : Record), joinConfidence t d = joinConfidenceDecl t d) ∧
    (∀ d : Record, getVal d (strL "rank") = none → sampleRank d = 1) ∧
    (∀ (d : Record) (v : PyVal), getVal d (strL "rank") = some v →
      as_float v = none → sampleRank d = 1) ∧
    (∀ (d : Record) (v : PyVal) (q : ℚ), getVal d (strL "rank") = some v →
      as_float v = some q → sampleRank d = truncInt q) := by
  refine ⟨?_, ?_, ?_, ?_⟩
  · intro t d
    unfold joinConfidence joinConfidenceDecl
    exact joinLoop_eq_findSome t (sampleRank d) _
  · intro d h
    simp [sampleRank, h]
  · intro d v h hv
    simp [sampleRank, h, hv]
  · intro d v q h hv
    simp [sampleRank, h, hv]

/-- C4 witness: the theorem instantiated on a concrete table and sample
(hit at `("Artist_Name", 2)`), and the rank default on a rankless record. -/
theorem C4_join_first_hit_witness :
    joinConfidence [((strL "Artist_Name", 2), 3/4)]
        [(strL "painting_info", .str (strL "Artist_Name")), (strL "rank", .num 2)] =
      joinConfidenceDecl [((strL "Artist_Name", 2), 3/4)]
        [(strL "painting_info", .str (strL "Artist_Name")), (strL "rank", .num 2)] ∧
    sampleRank [(strL "foo", .num 1)] = 1 :=
  ⟨C4_join_first_hit.1 _ _, C4_join_first_hit.2.1 _ (by rfl)⟩

/-- C4 counterexample: a sample whose only candidate is the non-empty
string `"_"` (canonical base id empty) against a table containing the key
`("", 1)`: the claim's procedure would look that key up and hit, but the
code skips candidates with empty base id, leaving the confidence null. -/
theorem C4_counterexample :
    joinConfidence [(([], 1), 1/2)] [(strL "painting_info", .str (strL "_"))] = none ∧
    joinConfidenceClaim [(([], 1), 1/2)] [(strL "painting_info", .str (strL "_"))] =
      some (1/2) ∧
    (strL "_").isEmpty = false ∧
    (normalize_id_and_ev (strL "_")).1 = [] :=
  ⟨rfl, rfl, rfl, rfl⟩

/-! Vector normalization and pipeline theorems. -/

/-- C8: normalization fails exactly when the computed Euclidean magnitude
is below `eps` (a non-finite magnitude, the other failure arm of the
source, cannot arise in exact real arithmetic), the computed magnitude is
reported in every case, `normalize(0,0,0)` fails with magnitude 0, and on
success each component is divided by the magnitude. -/
theorem C8_normalize_vec :
    (∀ x y z eps : ℝ,
      ((normalize_vec x y z eps).1 = none ↔ Real.sqrt (x * x + y * y + z * z) < eps) ∧
      (normalize_vec x y z eps).2 = Real.sqrt (x * x + y * y + z * z) ∧
      (¬ Real.sqrt (x * x + y * y + z * z) < eps →
        normalize_vec x y z eps =
          (some (x / Real.sqrt (x * x + y * y + z * z),
                 y / Real.sqrt (x * x + y * y + z * z),
                 z / Real.sqrt (x * x + y * y + z * z)),
           Real.sqrt (x * x + y * y + z * z)))) ∧
    normalize_vec 0 0 0 defaultEps = (none, 0) := by
  constructor
  · intro x y z eps
    refine ⟨?_, ?_, ?_⟩
    · simp only [normalize_vec]
      split_ifs with h <;> simp [h]
    · simp only [normalize_vec]
      split_ifs with h <;> rfl
    · intro h
      unfold normalize_vec
      rw [if_neg h]
  · have e1 : (0 : ℝ) * 0 + 0 * 0 + 0 * 0 = 0 := by norm_num
    unfold normalize_vec
    rw [e1, Real.sqrt_zero, if_pos]
    unfold defaultEps
    norm_num

/-- C8 witness: the unit vector `(0,0,1)` has magnitude 1, is not below
the default epsilon, and normalizes to itself. -/
theorem C8_normalize_vec_witness :
    (normalize_vec 0 0 1 defaultEps).1 = some (0, 0, 1) := by
  have e1 : (0 : ℝ) * 0 + 0 * 0 + 1 * 1 = 1 := by norm_num
  have h := (C8_normalize_vec.1 0 0 1 defaultEps).2.2 (by
    rw [e1, Real.sqrt_one]
    unfold defaultEps
    norm_num)
  rw [h]
  simp [e1, Real.sqrt_one]

theorem processOne_none_of_extract {d : Record} (nn : Bool)
    (h : (extract_direction_components d).1 = none) : processOne nn d = none := by
  unfold processOne
  cases he : extract_direction_components d with
  | mk o s =>
    cases o with
    | none => rfl
    | some v =>
      rw [he] at h
      simp at h

/-- C9: when zero samples survive the direction-extraction stage the
pipeline yields no output (the run halts before asset staging and before
`index.html`), and this is the only fatal condition: the result is `none`
exactly when the survivor list is empty, and any produced output is the
non-empty survivor list. -/
theorem C9_zero_survivors_fatal :
    (∀ (nn : Bool) (ds : List Record),
      (∀ d ∈ ds, (extract_direction_components d).1 = none) → runCore nn ds = none) ∧
    (∀ (nn : Bool) (ds : List Record),
      (runCore nn ds = none ↔ processSamples nn ds = [])) ∧
    (∀ (nn : Bool) (ds : List Record) (out : List Enriched),
      runCore nn ds = some out → out = processSamples nn ds ∧ out ≠ []) := by
  refine ⟨?_, ?_, ?_⟩
  · intro nn ds h
    have hused : processSamples nn ds = [] := by
      unfold processSamples
      rw [List.filterMap_eq_nil_iff]
      intro d hd
      exact processOne_none_of_extract nn (h d hd)
    simp [runCore, hused]
  · intro nn ds
    simp only [runCore]
    cases hu : processSamples nn ds with
    | nil => simp
    | cons a l => simp
  · intro nn ds out h
    simp only [runCore] at h
    cases hu : processSamples nn ds with
    | nil =>
      rw [hu] at h
      simp at h
    | cons a l =>
      rw [hu] at h
      simp only [List.isEmpty_cons, Bool.false_eq_true, if_false, Option.some.injEq] at h
      exact ⟨h ▸ rfl, h ▸ (by simp)⟩

/-- C9 witness: a single sample with no direction keys makes the pipeline
halt with no output. -/
theorem C9_zero_survivors_fatal_witness : runCore true [[]] = none :=
  C9_zero_survivors_fatal.1 true [[]] (by intro d hd; fin_cases hd; rfl)

/-- C10: in pass-through mode a sample whose extracted direction is
degenerate is not dropped — it keeps its raw components as `x`, `y`, `z`
and its raw magnitude is still computed and stored in `dir_norm_raw`
(never null in exact arithmetic, where the magnitude is always finite) —
while with normalization enabled a below-epsilon magnitude drops the
sample. -/
theorem C10_passthrough_keeps_degenerate :
    ∀ (d : Record) (x y z : ℚ) (src : Str),
      extract_direction_components d = (some (x, y, z), src) →
      processOne true d = some ⟨d, (x : ℝ), (y : ℝ), (z : ℝ),
          some (Real.sqrt ((x : ℝ) * (x : ℝ) + (y : ℝ) * (y : ℝ) + (z : ℝ) * (z : ℝ))), src⟩ ∧
      (Real.sqrt ((x : ℝ) * (x : ℝ) + (y : ℝ) * (y : ℝ) + (z : ℝ) * (z : ℝ)) < defaultEps →
        processOne false d = none) := by
  intro d x y z src he
  constructor
  · unfold processOne
    rw [he]
    rfl
  · intro hlt
    unfold processOne
    rw [he]
    show (match normalize_vec (x : ℝ) (y : ℝ) (z : ℝ) defaultEps with
      | (some (ux, uy, uz), n) =>
        some (⟨d, ux, uy, uz, some n, src⟩ : Enriched)
      | (none, _) => none) = none
    unfold normalize_vec
    rw [if_pos hlt]

/-- C10 witness: a record with the flat zero triple is kept in
pass-through mode and dropped when normalization is enabled. -/
theorem C10_passthrough_keeps_degenerate_witness :
    (processOne true
      [(strL "dir_x", .num 0), (strL "dir_y", .num 0), (strL "dir_z", .num 0)]).isSome = true ∧
    processOne false
      [(strL "dir_x", .num 0), (strL "dir_y", .num 0), (strL "dir_z", .num 0)] = none := by
  have h := C10_passthrough_keeps_degenerate
    [(strL "dir_x", .num 0), (strL "dir_y", .num 0), (strL "dir_z", .num 0)]
    0 0 0 (strL "dir_x,dir_y,dir_z") (by rfl)
  refine ⟨?_, ?_⟩
  · rw [h.1]
    rfl
  · apply h.2
    have e1 : ((0 : ℚ) : ℝ) * ((0 : ℚ) : ℝ) + ((0 : ℚ) : ℝ) * ((0 : ℚ) : ℝ) +
        ((0 : ℚ) : ℝ) * ((0 : ℚ) : ℝ) = 0 := by norm_num
    rw [e1, Real.sqrt_zero]
    unfold defaultEps
    norm_num

end Website
